import Mathlib

/-!
Verification of the remote-table execution adapter
(`src/remote-table/src/exec.rs`).

The embedding models schemas by their ordered field names (the only part of
an Arrow field that the embedded operations inspect), predicate expressions
as a small tree with column references, literals, and unary/binary operator
nodes, and each fallible Rust function as a Lean function into `Except`.
The `Connection::query` invocation is modelled by returning the record of
arguments the code passes to it; an `Except.error` result therefore models
"the query operation was never invoked".
-/

namespace RemoteTable

/-- A schema is its ordered list of field names.  Field types play no role in
any of the embedded operations (index lookup, positional field access,
projection), so fields are modelled by their names. -/
abbrev Schema := List String

/-- Error taxonomy of the embedded fallible operations.  `fieldIndexOut`
models the Arrow-side panic of `Schema::field(i)` on an out-of-range index,
kept as an error value so the rewriter stays a total function.
`projectionOut` models `project_schema` failing on an out-of-range
projection index.  `external` stands for any error produced by an opaque
collaborator (a `Transform`'s schema mapping). -/
inductive DFError where
  | columnNotFound (name : String)
  | fieldIndexOut (i : Nat)
  | projectionOut (i : Nat)
  | external (msg : String)
  deriving DecidableEq, Repr

instance {ε α : Type} [DecidableEq ε] [DecidableEq α] :
    DecidableEq (Except ε α) := fun x y =>
  match x, y with
  | .ok a, .ok b =>
    if h : a = b then .isTrue (by rw [h])
    else .isFalse (by intro hc; injection hc; exact h (by assumption))
  | .ok _, .error _ => .isFalse (by intro hc; cases hc)
  | .error _, .ok _ => .isFalse (by intro hc; cases hc)
  | .error d, .error e =>
    if h : d = e then .isTrue (by rw [h])
    else .isFalse (by intro hc; injection hc; exact h (by assumption))

/-- `Schema::index_of(name)`: index of the first field called `name`, or a
column-not-found error (Arrow's `FieldNotFound`, surfaced through `?` as a
`DataFusionError`). -/
def index_of (s : Schema) (name : String) : Except DFError Nat :=
  match s with
  | [] => .error (.columnNotFound name)
  | f :: rest =>
    if f = name then .ok 0
    else
      match index_of rest name with
      | .ok i => .ok (i + 1)
      | .error e => .error e

/-- `datafusion::prelude::Expr`, restricted to the node kinds the rewriter
distinguishes: a column reference (`Expr::Column`, carrying an optional
table qualifier and a bare name), a literal, and unary/binary operator
nodes standing for every non-column interior node. -/
inductive Expr where
  | column (qualifier : Option String) (name : String)
  | lit (v : Int)
  | unary (op : String) (e : Expr)
  | binary (op : String) (lhs rhs : Expr)
  deriving DecidableEq, Repr

/-- The bare names of all column references in an expression. -/
def Expr.columnNames : Expr → List String
  | .column _ name => [name]
  | .lit _ => []
  | .unary _ e => e.columnNames
  | .binary _ l r => l.columnNames ++ r.columnNames

/-- Replace every column reference by an unqualified reference to the same
name, leaving everything else unchanged. -/
def Expr.stripQual : Expr → Expr
  | .column _ name => .column none name
  | .lit v => .lit v
  | .unary op e => .unary op e.stripQual
  | .binary op l r => .binary op l.stripQual r.stripQual

/-- The closure passed to `transform_down` in `rewrite_filters_column`,
fused with the top-down traversal.  A column named `c` is looked up in
`transformed_table_schema`; the field at the same position of
`table_schema` gives the new, unqualified name
(`Column::new_unqualified(row_name)`).  The replacement is a leaf, so
`transform_down` does not descend further there; every other node is kept
(`Transformed::no`) and the traversal rebuilds it from its rewritten
children. -/
def rewriteExpr (table_schema transformed_table_schema : Schema) :
    Expr → Except DFError Expr
  | .column _ name => do
    let col_idx ← index_of transformed_table_schema name
    match table_schema.get? col_idx with
    | some row_name => .ok (.column none row_name)
    | none => .error (.fieldIndexOut col_idx)
  | .lit v => .ok (.lit v)
  | .unary op e => do
    let e' ← rewriteExpr table_schema transformed_table_schema e
    .ok (.unary op e')
  | .binary op l r => do
    let l' ← rewriteExpr table_schema transformed_table_schema l
    let r' ← rewriteExpr table_schema transformed_table_schema r
    .ok (.binary op l' r')

/-- `rewrite_filters_column(filters, table_schema, transformed_table_schema)`:
rewrite each filter in order, short-circuiting on the first error exactly as
`collect::<DFResult<Vec<_>>>` does. -/
def rewrite_filters_column (filters : List Expr)
    (table_schema transformed_table_schema : Schema) :
    Except DFError (List Expr) :=
  match filters with
  | [] => .ok []
  | f :: rest => do
    let f' ← rewriteExpr table_schema transformed_table_schema f
    let rest' ← rewrite_filters_column rest table_schema transformed_table_schema
    .ok (f' :: rest')

/-- The opaque `Transform` capability: only its schema-mapping rule is
visible to this core. -/
structure Transform where
  schemaMap : Schema → Option Schema → Except DFError Schema

/-- Modelled from the spec: `transform_schema` lives in the crate root, not
under `src/`.  Spec 4.1: "If `transform` is absent, returns `declared`
unchanged.  If present, delegates to the transform's schema-mapping rule,
which may consult `remote` (the wire schema)". -/
def transform_schema (declared : Schema) (transform : Option Transform)
    (remote : Option Schema) : Except DFError Schema :=
  match transform with
  | none => .ok declared
  | some t => t.schemaMap declared remote

/-- `datafusion::physical_plan::project_schema`: keep the fields at the given
positions, in the given order; absent projection keeps the whole schema;
an out-of-range index is an error. -/
def project_schema (s : Schema) (projection : Option (List Nat)) :
    Except DFError Schema :=
  match projection with
  | none => .ok s
  | some idxs =>
    match idxs with
    | [] => .ok []
    | i :: rest => do
      let f ←
        match s.get? i with
        | some f => Except.ok f
        | none => Except.error (DFError.projectionOut i)
      let rest' ← project_schema s (some rest)
      .ok (f :: rest')

/-- The remote source's dialect: the only capability this core consults is
`support_rewrite_with_filters_limit`, a pure predicate on the SQL text. -/
structure DbType where
  supportRewriteWithFiltersLimit : String → Bool

/-- Connection options; `db_type()` is the only accessor the core uses. -/
structure ConnectionOptions where
  db_type : DbType

/-- The opaque, shared `Connection` capability, identified by a handle. -/
structure Connection where
  id : Nat
  deriving DecidableEq, Repr

/-- The argument record of a `Connection::query` invocation, as assembled by
`build_and_transform_stream`. -/
structure QueryCall where
  sql : String
  table_schema : Schema
  projection : Option (List Nat)
  filters : List Expr
  limit : Option Nat
  deriving DecidableEq, Repr

/-- `RemoteTableExec`: the execution node's fields, verbatim. -/
structure RemoteTableExec where
  conn_options : ConnectionOptions
  sql : String
  table_schema : Schema
  remote_schema : Option Schema
  projection : Option (List Nat)
  filters : List Expr
  limit : Option Nat
  transform : Option Transform
  conn : Connection
  plan_properties : Schema

/-- `RemoteTableExec::try_new`: compute the transformed schema, project it,
and store the projected schema in the node's plan properties (the
equivalence-properties schema); any failure aborts construction. -/
def try_new (conn_options : ConnectionOptions) (sql : String)
    (table_schema : Schema) (remote_schema : Option Schema)
    (projection : Option (List Nat)) (filters : List Expr)
    (limit : Option Nat) (transform : Option Transform) (conn : Connection) :
    Except DFError RemoteTableExec := do
  let transformed_table_schema ←
    transform_schema table_schema transform remote_schema
  let projected_schema ← project_schema transformed_table_schema projection
  .ok {
    conn_options := conn_options
    sql := sql
    table_schema := table_schema
    remote_schema := remote_schema
    projection := projection
    filters := filters
    limit := limit
    transform := transform
    conn := conn
    plan_properties := projected_schema
  }

/-- `properties()`: the stored plan properties (here, their schema). -/
def properties (node : RemoteTableExec) : Schema :=
  node.plan_properties

/-- `fetch()` (the engine's `current_fetch()` introspection): the node's own
limit. -/
def fetch (node : RemoteTableExec) : Option Nat :=
  node.limit

/-- `with_fetch(limit)`: if the dialect supports rewriting this SQL with
filters and limit, a new node is built copying every field of the receiver
except `limit`; otherwise no node is produced. -/
def with_fetch (node : RemoteTableExec) (limit : Option Nat) :
    Option RemoteTableExec :=
  if node.conn_options.db_type.supportRewriteWithFiltersLimit node.sql then
    some {
      conn_options := node.conn_options
      sql := node.sql
      table_schema := node.table_schema
      remote_schema := node.remote_schema
      projection := node.projection
      filters := node.filters
      limit := limit
      transform := node.transform
      conn := node.conn
      plan_properties := node.plan_properties
    }
  else
    none

/-- `build_and_transform_stream`, up to the `Connection::query` suspension
point: recompute the transformed schema, rewrite the filters, apply the
pushdown policy to the limit, and assemble the query arguments.  An `ok`
result is the argument record handed to `conn.query`; an `error` result
models the stream failing before the query operation is ever invoked (the
post-query `TransformStream` wrapping is outside this model). -/
def build_and_transform_stream (conn_options : ConnectionOptions)
    (sql : String) (table_schema : Schema) (remote_schema : Option Schema)
    (projection : Option (List Nat)) (filters : List Expr)
    (limit : Option Nat) (transform : Option Transform) :
    Except DFError QueryCall := do
  let transformed_table_schema ←
    transform_schema table_schema transform remote_schema
  let rewritten_filters ←
    rewrite_filters_column filters table_schema transformed_table_schema
  let limit :=
    if conn_options.db_type.supportRewriteWithFiltersLimit sql then limit
    else none
  .ok {
    sql := sql
    table_schema := table_schema
    projection := projection
    filters := rewritten_filters
    limit := limit
  }

/-- Outcome of `execute(partition, ..)`: either the assertion
`assert_eq!(partition, 0)` fires (a panic, not a `Result`), or the call
returns `Ok` with the lazily-run stream-assembly future, whose eventual
outcome is the embedded `build_and_transform_stream` value. -/
inductive ExecOutcome where
  | panicked
  | ok (stream : Except DFError QueryCall)

/-- `execute(partition, _context)`. -/
def execute (node : RemoteTableExec) (partition : Nat) : ExecOutcome :=
  if partition = 0 then
    .ok (build_and_transform_stream node.conn_options node.sql
      node.table_schema node.remote_schema node.projection node.filters
      node.limit node.transform)
  else
    .panicked

/-- An expression is plain over a schema when every column reference in it is
unqualified and names a field of the schema. -/
def Expr.plainOver (s : Schema) : Expr → Bool
  | .column q name => q == none && s.contains name
  | .lit _ => true
  | .unary _ e => e.plainOver s
  | .binary _ l r => l.plainOver s && r.plainOver s

/-- A concrete node used by the witnesses: pushdown denied for every SQL
text, no transform, no filters, a requested limit of 10. -/
def deniedNode : RemoteTableExec where
  conn_options := ⟨⟨fun _ => false⟩⟩
  sql := "SELECT * FROM t ORDER BY a LIMIT 3"
  table_schema := ["a", "b"]
  remote_schema := none
  projection := none
  filters := []
  limit := some 10
  transform := none
  conn := ⟨0⟩
  plan_properties := ["a", "b"]

/-- A concrete node used by the witnesses: pushdown allowed for every SQL
text, no transform, one filter, a requested limit of 5. -/
def allowedNode : RemoteTableExec where
  conn_options := ⟨⟨fun _ => true⟩⟩
  sql := "SELECT * FROM t"
  table_schema := ["id", "name"]
  remote_schema := none
  projection := some [1]
  filters := [.binary "Gt" (.column none "id") (.lit 10)]
  limit := some 5
  transform := none
  conn := ⟨1⟩
  plan_properties := ["name"]

section Lemmas

/-- A successful `index_of` returns a position holding the requested name
(the first such position). -/
theorem index_of_getElem? (s : Schema) (c : String) :
    ∀ i, index_of s c = .ok i → s[i]? = some c := by
  induction s with
  | nil => intro i h; simp [index_of] at h
  | cons f rest ih =>
    intro i h
    rw [index_of] at h
    by_cases hf : f = c
    · rw [if_pos hf] at h
      cases h
      simp [hf]
    · rw [if_neg hf] at h
      cases hrest : index_of rest c with
      | ok j =>
        rw [hrest] at h
        cases h
        simpa using ih j hrest
      | error e => rw [hrest] at h; cases h

/-- A successful `index_of` returns an in-range position. -/
theorem index_of_lt (s : Schema) (c : String) (i : Nat)
    (h : index_of s c = .ok i) : i < s.length := by
  have hg := index_of_getElem? s c i h
  exact (List.getElem?_eq_some.mp hg).1

/-- A successful `index_of` implies membership. -/
theorem mem_of_index_of_ok (s : Schema) (c : String) (i : Nat)
    (h : index_of s c = .ok i) : c ∈ s := by
  have hg := index_of_getElem? s c i h
  obtain ⟨hlt, heq⟩ := List.getElem?_eq_some.mp hg
  exact heq ▸ List.getElem_mem hlt

/-- A failing `index_of` is always a column-not-found error for the
requested name, and the name is indeed absent. -/
theorem index_of_error (s : Schema) (c : String) :
    ∀ e, index_of s c = .error e → e = .columnNotFound c ∧ c ∉ s := by
  induction s with
  | nil =>
    intro e h
    rw [index_of] at h
    cases h
    exact ⟨rfl, by simp⟩
  | cons f rest ih =>
    intro e h
    rw [index_of] at h
    by_cases hf : f = c
    · rw [if_pos hf] at h; cases h
    · rw [if_neg hf] at h
      cases hrest : index_of rest c with
      | ok j => rw [hrest] at h; cases h
      | error e₂ =>
        rw [hrest] at h
        injection h with h
        subst h
        have h2 := ih e₂ hrest
        refine ⟨h2.1, ?_⟩
        simp only [List.mem_cons, not_or]
        exact ⟨fun hc => hf hc.symm, h2.2⟩

/-- A member of the schema is always found by `index_of`. -/
theorem index_of_mem (s : Schema) (c : String) (h : c ∈ s) :
    ∃ i, index_of s c = .ok i := by
  cases hio : index_of s c with
  | ok i => exact ⟨i, rfl⟩
  | error e => exact absurd h (index_of_error s c e hio).2

/-- On a duplicate-free schema, looking up the name at position `i` returns
exactly `i`. -/
theorem index_of_get_nodup (s : Schema) (hnd : s.Nodup) :
    ∀ i (hi : i < s.length), index_of s s[i] = .ok i := by
  induction s with
  | nil => intro i hi; simp at hi
  | cons f rest ih =>
    intro i hi
    cases i with
    | zero => simp [index_of]
    | succ j =>
      have hj : j < rest.length := by simpa using hi
      have hget : (f :: rest)[j + 1] = rest[j] := rfl
      rw [hget, index_of]
      have hfmem : rest[j] ∈ rest := List.getElem_mem hj
      have hne : f ≠ rest[j] := by
        intro heq
        exact (List.nodup_cons.mp hnd).1 (heq ▸ hfmem)
      rw [if_neg hne, ih (List.nodup_cons.mp hnd).2 j hj]

/-- A successfully rewritten expression only referenced columns present in
the transformed schema. -/
theorem rewriteExpr_ok_columns (ts tts : Schema) :
    ∀ e e', rewriteExpr ts tts e = .ok e' →
      ∀ c ∈ e.columnNames, c ∈ tts := by
  intro e
  induction e with
  | column q name =>
    intro e' h c hc
    simp [Expr.columnNames] at hc
    subst hc
    rw [rewriteExpr] at h
    cases hio : index_of tts c with
    | ok i => exact mem_of_index_of_ok tts c i hio
    | error er => rw [hio] at h; simp [Bind.bind, Except.bind] at h
  | lit v => intro e' h c hc; simp [Expr.columnNames] at hc
  | unary op e ih =>
    intro e' h c hc
    rw [rewriteExpr] at h
    cases hrw : rewriteExpr ts tts e with
    | ok e₁ => exact ih e₁ hrw c hc
    | error er => rw [hrw] at h; simp [Bind.bind, Except.bind] at h
  | binary op l r ihl ihr =>
    intro e' h c hc
    rw [rewriteExpr] at h
    simp [Expr.columnNames] at hc
    cases hl : rewriteExpr ts tts l with
    | error er => rw [hl] at h; simp [Bind.bind, Except.bind] at h
    | ok l₁ =>
      cases hr : rewriteExpr ts tts r with
      | error er => rw [hl, hr] at h; simp [Bind.bind, Except.bind] at h
      | ok r₁ =>
        cases hc with
        | inl hcl => exact ihl l₁ hl c hcl
        | inr hcr => exact ihr r₁ hr c hcr

/-- When the declared schema is at least as long as the transformed schema
(so positional field access cannot go out of range), every rewriting
failure is a column-not-found error for a name absent from the transformed
schema. -/
theorem rewriteExpr_error_shape (ts tts : Schema)
    (hlen : tts.length ≤ ts.length) :
    ∀ e err, rewriteExpr ts tts e = .error err →
      ∃ c, err = .columnNotFound c ∧ c ∉ tts := by
  intro e
  induction e with
  | column q name =>
    intro err h
    rw [rewriteExpr] at h
    cases hio : index_of tts name with
    | ok i =>
      rw [hio] at h
      have hi : i < ts.length :=
        lt_of_lt_of_le (index_of_lt tts name i hio) hlen
      simp [Bind.bind, Except.bind, List.getElem?_eq_getElem hi] at h
    | error er =>
      rw [hio] at h
      simp [Bind.bind, Except.bind] at h
      subst h
      exact ⟨name, (index_of_error tts name er hio).1,
        (index_of_error tts name er hio).2⟩
  | lit v => intro err h; simp [rewriteExpr] at h
  | unary op e ih =>
    intro err h
    rw [rewriteExpr] at h
    cases hrw : rewriteExpr ts tts e with
    | ok e₁ => rw [hrw] at h; simp [Bind.bind, Except.bind] at h
    | error er =>
      rw [hrw] at h
      simp [Bind.bind, Except.bind] at h
      subst h
      exact ih er hrw
  | binary op l r ihl ihr =>
    intro err h
    rw [rewriteExpr] at h
    cases hl : rewriteExpr ts tts l with
    | error er =>
      rw [hl] at h
      simp [Bind.bind, Except.bind] at h
      subst h
      exact ihl er hl
    | ok l₁ =>
      rw [hl] at h
      cases hr : rewriteExpr ts tts r with
      | error er =>
        rw [hr] at h
        simp [Bind.bind, Except.bind] at h
        subst h
        exact ihr er hr
      | ok r₁ => rw [hr] at h; simp [Bind.bind, Except.bind] at h

/-- List version of `rewriteExpr_ok_columns`. -/
theorem rewrite_filters_ok_columns (ts tts : Schema) :
    ∀ fs fs', rewrite_filters_column fs ts tts = .ok fs' →
      ∀ f ∈ fs, ∀ c ∈ f.columnNames, c ∈ tts := by
  intro fs
  induction fs with
  | nil => intro fs' h f hf; simp at hf
  | cons g rest ih =>
    intro fs' h f hf
    rw [rewrite_filters_column] at h
    cases hg : rewriteExpr ts tts g with
    | error er => rw [hg] at h; simp [Bind.bind, Except.bind] at h
    | ok g₁ =>
      rw [hg] at h
      cases hrest : rewrite_filters_column rest ts tts with
      | error er => rw [hrest] at h; simp [Bind.bind, Except.bind] at h
      | ok rest₁ =>
        cases hf with
        | head => exact rewriteExpr_ok_columns ts tts g g₁ hg
        | tail _ hmem => exact ih rest₁ hrest f hmem

/-- List version of `rewriteExpr_error_shape`. -/
theorem rewrite_filters_error_shape (ts tts : Schema)
    (hlen : tts.length ≤ ts.length) :
    ∀ fs err, rewrite_filters_column fs ts tts = .error err →
      ∃ c, err = .columnNotFound c ∧ c ∉ tts := by
  intro fs
  induction fs with
  | nil => intro err h; simp [rewrite_filters_column] at h
  | cons g rest ih =>
    intro err h
    rw [rewrite_filters_column] at h
    cases hg : rewriteExpr ts tts g with
    | error er =>
      rw [hg] at h
      simp [Bind.bind, Except.bind] at h
      subst h
      exact rewriteExpr_error_shape ts tts hlen g er hg
    | ok g₁ =>
      rw [hg] at h
      cases hrest : rewrite_filters_column rest ts tts with
      | error er =>
        rw [hrest] at h
        simp [Bind.bind, Except.bind] at h
        subst h
        exact ih er hrest
      | ok rest₁ => rw [hrest] at h; simp [Bind.bind, Except.bind] at h

/-- Rewriting an expression that is plain over `s` from `s` to `s` is the
identity. -/
theorem rewriteExpr_plain_id (s : Schema) :
    ∀ e, e.plainOver s = true → rewriteExpr s s e = .ok e := by
  intro e
  induction e with
  | column q name =>
    intro h
    simp [Expr.plainOver] at h
    obtain ⟨hq, hmem⟩ := h
    have hm : name ∈ s := by simpa using hmem
    obtain ⟨i, hio⟩ := index_of_mem s name hm
    subst hq
    rw [rewriteExpr]
    simp [hio, Bind.bind, Except.bind, index_of_getElem? s name i hio]
  | lit v => intro h; simp [rewriteExpr]
  | unary op e ih =>
    intro h
    simp [Expr.plainOver] at h
    rw [rewriteExpr, ih h]
    rfl
  | binary op l r ihl ihr =>
    intro h
    simp [Expr.plainOver] at h
    rw [rewriteExpr, ihl h.1, ihr h.2]
    rfl

/-- List version of `rewriteExpr_plain_id`. -/
theorem rewrite_filters_plain_id (s : Schema) :
    ∀ fs, (∀ f ∈ fs, f.plainOver s = true) →
      rewrite_filters_column fs s s = .ok fs := by
  intro fs
  induction fs with
  | nil => intro h; rfl
  | cons g rest ih =>
    intro h
    have hg : rewriteExpr s s g = .ok g :=
      rewriteExpr_plain_id s g (h g (List.mem_cons_self g rest))
    have hrest : rewrite_filters_column rest s s = .ok rest := by
      refine ih ?_
      intro f hf
      exact h f (List.mem_cons_of_mem g hf)
    rw [rewrite_filters_column, hg, hrest]
    rfl

/-- Round trip of a single expression: rewriting from `T` to `D` and then
from `D` back to `T` restores every column reference by position, with
table qualifiers stripped. -/
theorem rewriteExpr_roundtrip (T D : Schema) (hnd : D.Nodup)
    (hlen : T.length = D.length) :
    ∀ e e', rewriteExpr D T e = .ok e' →
      rewriteExpr T D e' = .ok e.stripQual := by
  intro e
  induction e with
  | column q name =>
    intro e' h
    rw [rewriteExpr] at h
    cases hio : index_of T name with
    | error er => rw [hio] at h; simp [Bind.bind, Except.bind] at h
    | ok i =>
      rw [hio] at h
      have hiT : i < T.length := index_of_lt T name i hio
      have hiD : i < D.length := hlen ▸ hiT
      simp [Bind.bind, Except.bind, List.getElem?_eq_getElem hiD] at h
      subst h
      rw [rewriteExpr]
      have hioD : index_of D D[i] = .ok i :=
        index_of_get_nodup D hnd i hiD
      have hT : T[i]? = some name := index_of_getElem? T name i hio
      simp [hioD, Bind.bind, Except.bind, hT, Expr.stripQual]
  | lit v =>
    intro e' h
    rw [rewriteExpr] at h
    injection h with h
    subst h
    rfl
  | unary op e ih =>
    intro e' h
    rw [rewriteExpr] at h
    cases hrw : rewriteExpr D T e with
    | error er => rw [hrw] at h; simp [Bind.bind, Except.bind] at h
    | ok e₁ =>
      rw [hrw] at h
      simp [Bind.bind, Except.bind] at h
      subst h
      rw [rewriteExpr, ih e₁ hrw]
      rfl
  | binary op l r ihl ihr =>
    intro e' h
    rw [rewriteExpr] at h
    cases hl : rewriteExpr D T l with
    | error er => rw [hl] at h; simp [Bind.bind, Except.bind] at h
    | ok l₁ =>
      rw [hl] at h
      cases hr : rewriteExpr D T r with
      | error er => rw [hr] at h; simp [Bind.bind, Except.bind] at h
      | ok r₁ =>
        rw [hr] at h
        simp [Bind.bind, Except.bind] at h
        subst h
        rw [rewriteExpr, ihl l₁ hl, ihr r₁ hr]
        rfl

/-- List version of `rewriteExpr_roundtrip`. -/
theorem rewrite_filters_roundtrip (T D : Schema) (hnd : D.Nodup)
    (hlen : T.length = D.length) :
    ∀ fs fs', rewrite_filters_column fs D T = .ok fs' →
      rewrite_filters_column fs' T D = .ok (fs.map Expr.stripQual) := by
  intro fs
  induction fs with
  | nil =>
    intro fs' h
    rw [rewrite_filters_column] at h
    injection h with h
    subst h
    rfl
  | cons g rest ih =>
    intro fs' h
    rw [rewrite_filters_column] at h
    cases hg : rewriteExpr D T g with
    | error er => rw [hg] at h; simp [Bind.bind, Except.bind] at h
    | ok g₁ =>
      rw [hg] at h
      cases hrest : rewrite_filters_column rest D T with
      | error er => rw [hrest] at h; simp [Bind.bind, Except.bind] at h
      | ok rest₁ =>
        rw [hrest] at h
        simp [Bind.bind, Except.bind] at h
        subst h
        rw [rewrite_filters_column,
          rewriteExpr_roundtrip T D hnd hlen g g₁ hg, ih rest₁ hrest]
        rfl

end Lemmas

section Claims

/-- Claim C1: the filter rewriter replaces each column-reference node by
looking up its name's positional index in the transformed schema and
substituting an unqualified reference to the declared schema's name at that
same position, while literal nodes are left unchanged and unary/binary
operator nodes keep their shape and operator, only their children being
rewritten. -/
theorem c1_column_rewrite_by_position
    (table_schema transformed_table_schema : Schema) :
    (∀ q name i row_name,
        index_of transformed_table_schema name = .ok i →
        table_schema[i]? = some row_name →
        rewriteExpr table_schema transformed_table_schema (.column q name)
          = .ok (.column none row_name))
    ∧ (∀ v, rewriteExpr table_schema transformed_table_schema (.lit v)
          = .ok (.lit v))
    ∧ (∀ op e e',
        rewriteExpr table_schema transformed_table_schema e = .ok e' →
        rewriteExpr table_schema transformed_table_schema (.unary op e)
          = .ok (.unary op e'))
    ∧ (∀ op l r l' r',
        rewriteExpr table_schema transformed_table_schema l = .ok l' →
        rewriteExpr table_schema transformed_table_schema r = .ok r' →
        rewriteExpr table_schema transformed_table_schema (.binary op l r)
          = .ok (.binary op l' r')) := by
  refine ⟨?_, ?_, ?_, ?_⟩
  · intro q name i row_name hio hget
    rw [rewriteExpr]
    simp [hio, Bind.bind, Except.bind, hget]
  · intro v; rfl
  · intro op e e' h
    rw [rewriteExpr, h]
    rfl
  · intro op l r l' r' hl hr
    rw [rewriteExpr, hl, hr]
    rfl

/-- Witness for C1 at a concrete input. -/
theorem c1_column_rewrite_by_position_witness :
    rewriteExpr ["a", "b"] ["x", "y"] (.column (some "t") "y")
      = .ok (.column none "b")
    ∧ rewriteExpr ["a", "b"] ["x", "y"] (.lit 5) = .ok (.lit 5)
    ∧ rewriteExpr ["a", "b"] ["x", "y"]
        (.binary "Gt" (.column (some "t") "y") (.lit 5))
      = .ok (.binary "Gt" (.column none "b") (.lit 5)) :=
  ⟨(c1_column_rewrite_by_position ["a", "b"] ["x", "y"]).1
      (some "t") "y" 1 "b" (by decide) (by decide),
   (c1_column_rewrite_by_position ["a", "b"] ["x", "y"]).2.1 5,
   (c1_column_rewrite_by_position ["a", "b"] ["x", "y"]).2.2.2
      "Gt" (.column (some "t") "y") (.lit 5) (.column none "b") (.lit 5)
      (by decide) (by decide)⟩

/-- Claim C2: when some filter references a column name absent from the
transformed schema, `rewrite_filters_column` returns a column-not-found
error for some absent name (the declared schema is assumed at least as long
as the transformed one, which rules out the Arrow-side positional-access
panic that an unrelated reference could otherwise trigger first). -/
theorem c2_missing_column_errors (filters : List Expr) (ts tts : Schema)
    (hlen : tts.length ≤ ts.length)
    (h : ∃ f ∈ filters, ∃ c ∈ f.columnNames, c ∉ tts) :
    ∃ c, rewrite_filters_column filters ts tts = .error (.columnNotFound c)
      ∧ c ∉ tts := by
  cases hres : rewrite_filters_column filters ts tts with
  | ok fs' =>
    exfalso
    obtain ⟨f, hf, c, hc, hnotin⟩ := h
    exact hnotin (rewrite_filters_ok_columns ts tts filters fs' hres f hf c hc)
  | error err =>
    obtain ⟨c, hcn, hnot⟩ :=
      rewrite_filters_error_shape ts tts hlen filters err hres
    exact ⟨c, by rw [hcn], hnot⟩

/-- Witness for C2: schema `[a, b]`, filter `c > 5`. -/
theorem c2_missing_column_errors_witness :
    (["a", "b"] : Schema).length ≤ (["a", "b"] : Schema).length
    ∧ (∃ f ∈ [Expr.binary "Gt" (.column none "c") (.lit 5)],
        ∃ c ∈ f.columnNames, c ∉ (["a", "b"] : Schema))
    ∧ ∃ c, rewrite_filters_column
        [Expr.binary "Gt" (.column none "c") (.lit 5)] ["a", "b"] ["a", "b"]
        = .error (.columnNotFound c) ∧ c ∉ (["a", "b"] : Schema) :=
  ⟨by decide, by decide,
   c2_missing_column_errors
     [Expr.binary "Gt" (.column none "c") (.lit 5)] ["a", "b"] ["a", "b"]
     (by decide) (by decide)⟩

/-- Claim C3: rewriting a filter list from transformed schema `T` to a
duplicate-free declared schema `D` of the same column count and then
rewriting the result back from `D` to `T` restores every column reference
by position (the original references with qualifiers stripped). -/
theorem c3_rewrite_roundtrip (T D : Schema) (filters rewritten : List Expr)
    (hnd : D.Nodup) (hlen : T.length = D.length)
    (h : rewrite_filters_column filters D T = .ok rewritten) :
    rewrite_filters_column rewritten T D = .ok (filters.map Expr.stripQual) :=
  rewrite_filters_roundtrip T D hnd hlen filters rewritten h

/-- Witness for C3 at a concrete input. -/
theorem c3_rewrite_roundtrip_witness :
    (["a", "b"] : Schema).Nodup
    ∧ rewrite_filters_column
        [Expr.binary "Gt" (.column (some "t") "y") (.lit 5)]
        ["a", "b"] ["x", "y"]
        = .ok [Expr.binary "Gt" (.column none "b") (.lit 5)]
    ∧ rewrite_filters_column
        [Expr.binary "Gt" (.column none "b") (.lit 5)] ["x", "y"] ["a", "b"]
        = .ok ([Expr.binary "Gt" (.column (some "t") "y") (.lit 5)].map
            Expr.stripQual) :=
  ⟨by decide, by decide,
   c3_rewrite_roundtrip ["x", "y"] ["a", "b"]
     [Expr.binary "Gt" (.column (some "t") "y") (.lit 5)]
     [Expr.binary "Gt" (.column none "b") (.lit 5)]
     (by decide) (by decide) (by decide)⟩

/-- Claim C4, as stated, is false: rewriting from the declared schema to
itself strips table qualifiers, so a qualified reference does not come back
unchanged. -/
theorem c4_counterexample :
    ¬ (transform_schema ["a"] none none = .ok ["a"]
       ∧ rewrite_filters_column [Expr.column (some "t") "a"] ["a"] ["a"]
           = .ok [Expr.column (some "t") "a"]) := by
  decide

/-- Claim C4 (amended): with no transform configured the transformed schema
is the declared schema unchanged, and rewriting filters whose column
references are all unqualified and name declared columns from the declared
schema to itself returns them unchanged. -/
theorem c4_no_transform_identity (declared : Schema) (remote : Option Schema)
    (filters : List Expr)
    (h : ∀ f ∈ filters, f.plainOver declared = true) :
    transform_schema declared none remote = .ok declared
    ∧ rewrite_filters_column filters declared declared = .ok filters :=
  ⟨rfl, rewrite_filters_plain_id declared filters h⟩

/-- Witness for the amended C4 at a concrete input. -/
theorem c4_no_transform_identity_witness :
    (∀ f ∈ [Expr.binary "Gt" (.column none "a") (.lit 5)],
        f.plainOver (["a", "b"] : Schema) = true)
    ∧ (transform_schema ["a", "b"] none none = .ok ["a", "b"]
       ∧ rewrite_filters_column [Expr.binary "Gt" (.column none "a") (.lit 5)]
           ["a", "b"] ["a", "b"]
           = .ok [Expr.binary "Gt" (.column none "a") (.lit 5)]) :=
  ⟨by decide,
   c4_no_transform_identity ["a", "b"] none
     [Expr.binary "Gt" (.column none "a") (.lit 5)] (by decide)⟩

/-- Claim C5: when the pushdown policy denies the node's dialect/SQL, the
stream assembly launched by `execute` hands the connection a query whose
limit is `none`, whatever limit the node requested, while the node's own
`fetch()` still reports the requested limit. -/
theorem c5_denied_pushdown_limit (node : RemoteTableExec)
    (h : node.conn_options.db_type.supportRewriteWithFiltersLimit node.sql
      = false) :
    (∀ stream qc, execute node 0 = .ok stream → stream = .ok qc →
        qc.limit = none)
    ∧ fetch node = node.limit := by
  refine ⟨?_, rfl⟩
  intro stream qc hex hqc
  simp [execute] at hex
  subst hex
  rw [build_and_transform_stream] at hqc
  cases hts : transform_schema node.table_schema node.transform
      node.remote_schema with
  | error e => rw [hts] at hqc; simp [Bind.bind, Except.bind] at hqc
  | ok tts =>
    rw [hts] at hqc
    simp only [Bind.bind, Except.bind] at hqc
    cases hrw : rewrite_filters_column node.filters node.table_schema tts with
    | error e => rw [hrw] at hqc; simp at hqc
    | ok rf =>
      rw [hrw] at hqc
      simp [h] at hqc
      subst hqc
      rfl

/-- Witness for C5: the denied node requested limit 10 but the query record
carries no limit. -/
theorem c5_denied_pushdown_limit_witness :
    deniedNode.conn_options.db_type.supportRewriteWithFiltersLimit
        deniedNode.sql = false
    ∧ ((∀ stream qc, execute deniedNode 0 = .ok stream → stream = .ok qc →
          qc.limit = none)
       ∧ fetch deniedNode = deniedNode.limit) :=
  ⟨rfl, c5_denied_pushdown_limit deniedNode rfl⟩

/-- Claim C6: `with_fetch` refuses to produce a node whenever the pushdown
policy denies the node's dialect and SQL text, for every requested limit. -/
theorem c6_with_fetch_denied (node : RemoteTableExec) (n : Option Nat)
    (h : node.conn_options.db_type.supportRewriteWithFiltersLimit node.sql
      = false) :
    with_fetch node n = none := by
  simp [with_fetch, h]

/-- Witness for C6 at a concrete node and limit. -/
theorem c6_with_fetch_denied_witness :
    deniedNode.conn_options.db_type.supportRewriteWithFiltersLimit
        deniedNode.sql = false
    ∧ with_fetch deniedNode (some 3) = none :=
  ⟨rfl, c6_with_fetch_denied deniedNode (some 3) rfl⟩

/-- Claim C7: a successful `with_fetch` yields a node whose limit is the
requested one and whose every other field is copied verbatim from the
receiver, and the receiver is untouched: its `fetch()` still reads its own
unchanged limit field. -/
theorem c7_with_fetch_frame (node m : RemoteTableExec) (n : Option Nat)
    (h : with_fetch node n = some m) :
    m.limit = n
    ∧ m.conn_options = node.conn_options
    ∧ m.sql = node.sql
    ∧ m.table_schema = node.table_schema
    ∧ m.remote_schema = node.remote_schema
    ∧ m.projection = node.projection
    ∧ m.filters = node.filters
    ∧ m.transform = node.transform
    ∧ m.conn = node.conn
    ∧ m.plan_properties = node.plan_properties
    ∧ fetch node = node.limit := by
  rw [with_fetch] at h
  cases hs : node.conn_options.db_type.supportRewriteWithFiltersLimit
      node.sql with
  | false => rw [hs] at h; simp at h
  | true =>
    rw [hs] at h
    simp at h
    subst h
    exact ⟨rfl, rfl, rfl, rfl, rfl, rfl, rfl, rfl, rfl, rfl, rfl⟩

/-- The node produced by `with_fetch allowedNode (some 7)`. -/
def allowedNode7 : RemoteTableExec := { allowedNode with limit := some 7 }

/-- Witness for C7 at a concrete node and limit. -/
theorem c7_with_fetch_frame_witness :
    with_fetch allowedNode (some 7) = some allowedNode7
    ∧ (allowedNode7.limit = some 7
       ∧ allowedNode7.conn_options = allowedNode.conn_options
       ∧ allowedNode7.sql = allowedNode.sql
       ∧ allowedNode7.table_schema = allowedNode.table_schema
       ∧ allowedNode7.remote_schema = allowedNode.remote_schema
       ∧ allowedNode7.projection = allowedNode.projection
       ∧ allowedNode7.filters = allowedNode.filters
       ∧ allowedNode7.transform = allowedNode.transform
       ∧ allowedNode7.conn = allowedNode.conn
       ∧ allowedNode7.plan_properties = allowedNode.plan_properties
       ∧ fetch allowedNode = allowedNode.limit) :=
  ⟨rfl, c7_with_fetch_frame allowedNode allowedNode7 (some 7) rfl⟩

/-- Claim C8: `execute` has precondition `partition = 0`; any other
partition aborts assertion-style (the modelled panic outcome), never a
recoverable error value, and partition 0 never panics. -/
theorem c8_execute_partition_contract (node : RemoteTableExec) (p : Nat) :
    (p ≠ 0 → execute node p = .panicked)
    ∧ (p = 0 → execute node p ≠ .panicked) := by
  constructor
  · intro hp
    rw [execute, if_neg hp]
  · intro hp hcontra
    subst hp
    rw [execute, if_pos rfl] at hcontra
    cases hcontra

/-- Witness for C8 at partitions 1 and 0. -/
theorem c8_execute_partition_contract_witness :
    execute deniedNode 1 = .panicked
    ∧ execute deniedNode 0 ≠ .panicked :=
  ⟨(c8_execute_partition_contract deniedNode 1).1 (by decide),
   (c8_execute_partition_contract deniedNode 0).2 rfl⟩

/-- Claim C9: if schema reconciliation or filter rewriting fails, stream
assembly propagates that error as its overall result — in this model the
`Except.error` outcome, under which no `QueryCall` argument record for the
connection's query operation is ever produced and no batch is delivered. -/
theorem c9_setup_failure_aborts (conn_options : ConnectionOptions)
    (sql : String) (table_schema : Schema) (remote_schema : Option Schema)
    (projection : Option (List Nat)) (filters : List Expr)
    (limit : Option Nat) (transform : Option Transform) :
    (∀ e, transform_schema table_schema transform remote_schema = .error e →
        build_and_transform_stream conn_options sql table_schema
          remote_schema projection filters limit transform = .error e)
    ∧ (∀ tts e,
        transform_schema table_schema transform remote_schema = .ok tts →
        rewrite_filters_column filters table_schema tts = .error e →
        build_and_transform_stream conn_options sql table_schema
          remote_schema projection filters limit transform = .error e) := by
  constructor
  · intro e he
    rw [build_and_transform_stream,  he]
    rfl
  · intro tts e hts hrw
    rw [build_and_transform_stream, hts]
    show rewrite_filters_column filters table_schema tts >>= _ = _
    rw [hrw]
    rfl

/-- A transform whose schema mapping always fails, used by witnesses. -/
def failingTransform : Transform :=
  ⟨fun _ _ => .error (.external "boom")⟩

/-- Connection options whose dialect allows every pushdown, used by
witnesses. -/
def permissiveOpts : ConnectionOptions := ⟨⟨fun _ => true⟩⟩

/-- Witness for C9: a failing transform schema mapping aborts assembly. -/
theorem c9_setup_failure_aborts_witness :
    transform_schema ["a"] (some failingTransform) none
      = .error (.external "boom")
    ∧ build_and_transform_stream permissiveOpts "q" ["a"] none none [] none
        (some failingTransform) = .error (.external "boom") :=
  ⟨rfl,
   (c9_setup_failure_aborts permissiveOpts "q" ["a"] none none [] none
       (some failingTransform)).1 (.external "boom") rfl⟩

/-- Claim C10: `try_new` validates at construction time — it propagates any
failure of the transformed-schema computation or of the projection — and a
successfully constructed node's plan properties carry exactly the projected
transformed schema. -/
theorem c10_try_new_validates (conn_options : ConnectionOptions)
    (sql : String) (table_schema : Schema) (remote_schema : Option Schema)
    (projection : Option (List Nat)) (filters : List Expr)
    (limit : Option Nat) (transform : Option Transform) (conn : Connection) :
    (∀ e, transform_schema table_schema transform remote_schema = .error e →
        try_new conn_options sql table_schema remote_schema projection
          filters limit transform conn = .error e)
    ∧ (∀ tts e,
        transform_schema table_schema transform remote_schema = .ok tts →
        project_schema tts projection = .error e →
        try_new conn_options sql table_schema remote_schema projection
          filters limit transform conn = .error e)
    ∧ (∀ node,
        try_new conn_options sql table_schema remote_schema projection
          filters limit transform conn = .ok node →
        ∃ tts, transform_schema table_schema transform remote_schema
            = .ok tts
          ∧ project_schema tts projection = .ok (properties node)) := by
  refine ⟨?_, ?_, ?_⟩
  · intro e he
    rw [try_new, he]
    rfl
  · intro tts e hts hpr
    rw [try_new, hts]
    show project_schema tts projection >>= _ = _
    rw [hpr]
    rfl
  · intro node h
    rw [try_new] at h
    cases hts : transform_schema table_schema transform remote_schema with
    | error e => rw [hts] at h; simp [Bind.bind, Except.bind] at h
    | ok tts =>
      rw [hts] at h
      simp only [Bind.bind, Except.bind] at h
      cases hpr : project_schema tts projection with
      | error e => rw [hpr] at h; simp at h
      | ok ps =>
        rw [hpr] at h
        simp at h
        subst h
        refine ⟨tts, rfl, ?_⟩
        rw [hpr]
        rfl

/-- Witness for C10: a failing transform schema mapping aborts
construction. -/
theorem c10_try_new_validates_witness :
    transform_schema ["a"] (some failingTransform) none
      = .error (.external "boom")
    ∧ try_new permissiveOpts "q" ["a"] none none [] none
        (some failingTransform) ⟨0⟩ = .error (.external "boom") :=
  ⟨rfl,
   (c10_try_new_validates permissiveOpts "q" ["a"] none none [] none
       (some failingTransform) ⟨0⟩).1 (.external "boom") rfl⟩

end Claims

end RemoteTable
